import Mathlib

/-!
Verification of the pricing-transformation and synchronization reconciliation
engine of the auto-parts price-sync tool.  Each definition is a shallow
embedding of one source function; numbers from the source (JS numbers used as
prices) are modelled as rationals, nullable values as `Option`, and JS
truthiness on nullable numbers/strings is made explicit.
-/

namespace AutoPartsSync

/-- JS truthiness test for a nullable number: `!x` is true exactly when the
value is null/undefined or the number 0 (NaN is not modelled). -/
def jsFalsyNum (x : Option ℚ) : Bool :=
  match x with
  | none => true
  | some p => p == 0

/-- Embedding of `calculateNewPrice` from `PriceUpdateModal.tsx`:
`if (!currentPrice) return null; switch (action) {case multiply: p*v;
case add: p+v; default: p}`. -/
def calculateNewPrice (currentPrice : Option ℚ) (action : String) (value : ℚ) :
    Option ℚ :=
  if jsFalsyNum currentPrice then none
  else match currentPrice with
    | none => none
    | some p =>
      if action = "multiply" then some (p * value)
      else if action = "add" then some (p + value)
      else some p

/-- Embedding of the `price_status` expression in `applyGlobalPricing`
(`PriceUpdateModal.tsx`): `newPrice && current_price ? (newPrice > current
? increased : newPrice < current ? decreased : unchanged) : unchanged`. -/
def classifyPriceStatus (newPrice currentPrice : Option ℚ) : String :=
  if jsFalsyNum newPrice || jsFalsyNum currentPrice then "unchanged"
  else match newPrice, currentPrice with
    | some n, some c =>
      if n > c then "increased"
      else if n < c then "decreased"
      else "unchanged"
    | _, _ => "unchanged"

/-- A row of the `products` table, restricted to the fields the article
reconciler of `fetchProducts` reads. -/
structure ProductRow where
  id : String
  supplier_article : String
  name_supplier : String
  marketplace_article : Option String
  name_marketplace : Option String
  price_status : Option String
  deriving DecidableEq, Repr

/-- JS `x || null` on a nullable string: an empty string is falsy and is
replaced by null. -/
def jsOrNullStr (x : Option String) : Option String :=
  match x with
  | none => none
  | some s => if s = "" then none else some s

/-- The `articleMapping` built in `fetchProducts`: marketplace rows are
inserted into a Map keyed by `marketplace_article` when that field is truthy;
`Map.set` lets later rows override earlier ones on duplicate keys. -/
def buildArticleMapping (marketplaceProducts : List ProductRow) :
    String → Option ProductRow :=
  marketplaceProducts.foldl
    (fun m mp =>
      match mp.marketplace_article with
      | some a => if a = "" then m else fun k => if k = a then some mp else m k
      | none => m)
    (fun _ => none)

/-- The enriched record built by `fetchProducts` for one supplier product:
the supplier row's own fields plus `name_marketplace`, `marketplace_article`
and `display_name` derived from the matched marketplace row. -/
structure EnrichedProduct where
  id : String
  supplier_article : String
  name_supplier : String
  marketplace_article : Option String
  name_marketplace : Option String
  price_status : Option String
  display_name : String
  deriving DecidableEq, Repr

/-- Enrichment of one supplier product (the body of the `map` in
`fetchProducts`): looks up the supplier's article in the mapping and fills
`name_marketplace`/`marketplace_article`/`display_name` with JS `||`
fallbacks. -/
def enrichOne (mapping : String → Option ProductRow) (sp : ProductRow) :
    EnrichedProduct :=
  let matched := mapping sp.supplier_article
  { id := sp.id
    supplier_article := sp.supplier_article
    name_supplier := sp.name_supplier
    price_status := sp.price_status
    name_marketplace := jsOrNullStr (matched.bind ProductRow.name_marketplace)
    marketplace_article := jsOrNullStr (matched.bind ProductRow.marketplace_article)
    display_name :=
      match jsOrNullStr (matched.bind ProductRow.name_marketplace) with
      | some n => n
      | none => sp.name_supplier }

/-- The article reconciler of `fetchProducts`: enrich every supplier product
against the mapping keyed over the marketplace products. -/
def enrichProducts (supplierProducts marketplaceProducts : List ProductRow) :
    List EnrichedProduct :=
  supplierProducts.map (enrichOne (buildArticleMapping marketplaceProducts))

/-- The display sort key of `fetchProducts`:
`statusOrder[price_status] ?? 4` over
`{increased: 0, decreased: 1, unchanged: 2, missing: 3}`. -/
def statusRank (status : Option String) : Nat :=
  match status with
  | some s =>
    if s = "increased" then 0
    else if s = "decreased" then 1
    else if s = "unchanged" then 2
    else if s = "missing" then 3
    else 4
  | none => 4

/-- The display sort of `fetchProducts`: ascending by status rank
(`aOrder - bOrder` comparator). -/
def sortProductsForDisplay (ps : List EnrichedProduct) : List EnrichedProduct :=
  ps.mergeSort (fun a b => statusRank a.price_status ≤ statusRank b.price_status)

/-- The sandbox page's per-session request counter (`testRequests` state in
`SandboxPage.tsx`). -/
structure TestRequests where
  used : Nat
  max : Nat
  deriving DecidableEq, Repr

/-- The sandbox page state touched by `runTest` and `resetTestCounter`. -/
structure SandboxState where
  testing : Bool
  showProgress : Bool
  testRequests : TestRequests
  deriving DecidableEq, Repr

/-- Embedding of `runTest` from `SandboxPage.tsx`: when `used >= max` the
request is denied with an error toast and the function returns before any
state change, so the progress view never mounts and no step starts;
otherwise the run is accepted, the progress view is shown and `used` is
incremented by one for the whole run. -/
def runTest (s : SandboxState) : SandboxState :=
  if s.testRequests.used ≥ s.testRequests.max then s
  else
    { testing := true
      showProgress := true
      testRequests := { s.testRequests with used := s.testRequests.used + 1 } }

/-- Embedding of `resetTestCounter` from `SandboxPage.tsx`: sets `used` back
to 0. -/
def resetTestCounter (s : SandboxState) : SandboxState :=
  { s with testRequests := { s.testRequests with used := 0 } }

/-- The control panel state read and written by the completion handler of a
sync run (`ControlPanel`'s `onComplete` prop of `LoadingProgress`). -/
structure ControlPanelState where
  showProgress : Bool
  progressType : String
  autoModeEnabled : Bool
  showPriceUpdateModal : Bool
  deriving DecidableEq, Repr

/-- Embedding of the control panel's `onComplete` handler: hides the
progress view and, when the finished run was a download and
`automation_settings.auto_mode_enabled` is false, opens the price-update
review modal. -/
def onRunComplete (s : ControlPanelState) : ControlPanelState :=
  { s with
    showProgress := false
    showPriceUpdateModal :=
      if s.progressType = "download" ∧ s.autoModeEnabled = false then true
      else s.showPriceUpdateModal }

/-- An image entry of the outbound product payload (`kaspi-api.ts`,
`ProductSchema.images` element). -/
structure ProductImage where
  url : String
  deriving DecidableEq, Repr

/-- An attribute entry of the outbound product payload: a (code, value)
pair, as `ProductSchema.attributes` requires. -/
structure ProductAttribute where
  code : String
  value : String
  deriving DecidableEq, Repr

/-- The outbound product payload shape of `ProductSchema` in
`kaspi-api.ts`. -/
structure KaspiProductPayload where
  sku : String
  title : String
  brand : String
  category : String
  description : String
  images : List ProductImage
  attributes : List ProductAttribute
  deriving DecidableEq, Repr

/-- `ProductSchema.parse` from `kaspi-api.ts` as a Boolean check,
parameterized by the URL syntax validator behind `z.string().url()`:
`sku`, `title`, `brand`, `category` and `description` must be non-empty
(`.min(1)`), and every image URL must pass the URL check; the `images` and
`attributes` arrays carry no length constraint of their own. -/
def productSchemaValid (isUrl : String → Bool) (p : KaspiProductPayload) : Bool :=
  !(p.sku == "") && !(p.title == "") && !(p.brand == "") &&
  !(p.category == "") && !(p.description == "") &&
  p.images.all (fun im => isUrl im.url)

/-- A network request recorded by the embedded HTTP layer of the Kaspi
adapter. -/
inductive ApiEvent where
  | request (endpoint : String) (payload : KaspiProductPayload)
  deriving DecidableEq, Repr

/-- Embedding of `KaspiApiClient.addProduct`: `ProductSchema.parse(product)`
runs before `makeRequest`, so a failing payload raises a validation error
with no network request; a passing payload issues exactly the POST to
`/goods`.  The result is the validation error or the list of issued
requests. -/
def addProduct (isUrl : String → Bool) (p : KaspiProductPayload) :
    Except String (List ApiEvent) :=
  if productSchemaValid isUrl p then Except.ok [ApiEvent.request "/goods" p]
  else Except.error "ValidationError"

/-- A row of the Kaspi price-list dialog's product table
(`KaspiPriceListDialog.tsx`). -/
structure KaspiPriceRow where
  id : String
  name : String
  kaspiArticle : String
  supplierArticle : String
  price : Int
  deriving DecidableEq, Repr

/-- The CSV header fields of `handleExportToFile`. -/
def csvHeaders : List String :=
  ["Наименование товара", "Артикул Каспи", "Артикул поставщика", "Цена"]

/-- One CSV line of `handleExportToFile`: quoted name, both articles and the
price, joined by semicolons. -/
def csvRow (p : KaspiPriceRow) : String :=
  String.intercalate ";"
    ["\"" ++ p.name ++ "\"", p.kaspiArticle, p.supplierArticle, toString p.price]

/-- The line array built by `handleExportToFile` before joining: the header
line followed by one line per product. -/
def csvLines (ps : List KaspiPriceRow) : List String :=
  String.intercalate ";" csvHeaders :: ps.map csvRow

/-- The CSV content of `handleExportToFile`: the lines joined by LF. -/
def csvContent (ps : List KaspiPriceRow) : String :=
  String.intercalate "\n" (csvLines ps)

/-- The byte-order mark prepended to the exported file for Excel. -/
def bomChar : String := "﻿"

/-- The full exported file content: BOM followed by the CSV content (the
string handed to the `Blob`). -/
def exportFileContent (ps : List KaspiPriceRow) : String :=
  bomChar ++ csvContent ps

/-- Step status of the batch sync orchestrator (`ProcessStep.status` in
`LoadingProgress`). -/
inductive StepStatus where
  | pending
  | processing
  | completed
  | error
  deriving DecidableEq, Repr

/-- One step of a sync run (`ProcessStep` in `LoadingProgress`). -/
structure ProcessStep where
  id : String
  name : String
  status : StepStatus
  progress : ℚ
  errorMsg : Option String
  deriving DecidableEq, Repr

/-- The run state held by `LoadingProgress`: the step list, the overall
progress, the completion flag, and the number of completion-callback
invocations. -/
structure RunState where
  steps : List ProcessStep
  overallProgress : ℚ
  isCompleted : Bool
  completeCalls : Nat
  deriving DecidableEq, Repr

/-- The error text recorded for a throwing step: the thrown value's message
when it is an `Error` (modelled as `some message`), else the fixed fallback
text (`error instanceof Error ? error.message : "Произошла ошибка"`). -/
def errText (thrown : Option String) : String :=
  match thrown with
  | some m => m
  | none => "Произошла ошибка"

/-- `setSteps(prev => prev.map((step, index) => index === i ? f(step) :
step))`: replace the step at index `i`, leaving the rest unchanged. -/
def setStepAt (steps : List ProcessStep) (i : Nat)
    (f : ProcessStep → ProcessStep) : List ProcessStep :=
  match steps[i]? with
  | some s => steps.set i (f s)
  | none => steps

/-- The `setSteps` marking step `i` as processing, issued before the step's
work is awaited. -/
def markProcessing (steps : List ProcessStep) (i : Nat) : List ProcessStep :=
  setStepAt steps i (fun s => { s with status := StepStatus.processing })

/-- The `setSteps` recording the step's outcome: completed with progress 100
on success, errored with progress 100 and the recorded message on a throw. -/
def markOutcome (r : Except (Option String) Unit) (steps : List ProcessStep)
    (i : Nat) : List ProcessStep :=
  match r with
  | Except.ok _ =>
    setStepAt steps i
      (fun s => { s with status := StepStatus.completed, progress := 100 })
  | Except.error e =>
    setStepAt steps i
      (fun s => { s with
        status := StepStatus.error
        progress := 100
        errorMsg := some (errText e) })

/-- One iteration of the `for` loop of `startProcess`: mark step `i`
processing, run the step's work on the step's entity id, record the
outcome, then recompute the overall progress as
`((i + 1) / total) * 100`. -/
def stepIteration (work : String → Except (Option String) Unit) (total : Nat)
    (st : RunState) (i : Nat) (stepId : String) : RunState :=
  { st with
    steps := markOutcome (work stepId) (markProcessing st.steps i) i
    overallProgress := ((i + 1 : ℚ) / total) * 100 }

/-- The `for` loop of `startProcess`, iterating over the remaining initial
steps, carrying the current loop index. -/
def runLoop (work : String → Except (Option String) Unit) (total : Nat) :
    Nat → List ProcessStep → RunState → RunState
  | _, [], st => st
  | i, s :: rest, st =>
    runLoop work total (i + 1) rest (stepIteration work total st i s.id)

/-- Embedding of `startProcess` in `LoadingProgress`: run the loop over the
initial steps starting from the state that holds them, then set
`isCompleted` and invoke the completion callback once. -/
def startProcess (work : String → Except (Option String) Unit)
    (initialSteps : List ProcessStep) : RunState :=
  let final := runLoop work initialSteps.length 0 initialSteps
    { steps := initialSteps, overallProgress := 0, isCompleted := false,
      completeCalls := 0 }
  { final with isCompleted := true, completeCalls := final.completeCalls + 1 }

/-- The run state observed right after the first `k` loop iterations of
`startProcess`. -/
def stateAfter (work : String → Except (Option String) Unit)
    (initialSteps : List ProcessStep) (k : Nat) : RunState :=
  runLoop work initialSteps.length 0 (initialSteps.take k)
    { steps := initialSteps, overallProgress := 0, isCompleted := false,
      completeCalls := 0 }

/-- The terminal value a step reaches after its loop iteration: completed
with progress 100, or errored with progress 100 and the recorded message. -/
def stepFinal (work : String → Except (Option String) Unit)
    (s : ProcessStep) : ProcessStep :=
  match work s.id with
  | Except.ok _ => { s with status := StepStatus.completed, progress := 100 }
  | Except.error e =>
    { s with
      status := StepStatus.error
      progress := 100
      errorMsg := some (errText e) }

/-- The initial step list built by the `useEffect` of `LoadingProgress`:
one pending step with progress 0 per selected entity. -/
def makeSteps (pfx : String) (ids : List String) : List ProcessStep :=
  ids.map (fun i =>
    { id := i, name := pfx ++ i, status := StepStatus.pending, progress := 0,
      errorMsg := none })

/-- Number of steps in a terminal status (completed or error). -/
def countTerminal (steps : List ProcessStep) : Nat :=
  steps.countP
    (fun s => s.status == StepStatus.completed || s.status == StepStatus.error)

/-- A concrete work function for the three-step scenario of the spec: the
step of entity "S2" throws a network error, the others succeed. -/
def scenarioWork (id : String) : Except (Option String) Unit :=
  if id = "S2" then Except.error (some "network error") else Except.ok ()

-- ## Theorems

/-- Setting an element by its (in-bounds) index in the middle of a list. -/
theorem list_set_at_middle {α : Type} (A : List α) (b x : α) (C : List α) :
    (A ++ b :: C).set A.length x = A ++ x :: C := by
  induction A with
  | nil => rfl
  | cons a A ih => simp [ih]

/-- Reading the element at the length of the left part of an append. -/
theorem list_get_at_middle {α : Type} (A : List α) (b : α) (C : List α) :
    (A ++ b :: C)[A.length]? = some b := by
  induction A with
  | nil => simp
  | cons a A ih => simpa using ih

/-- `setStepAt` at the index right after a known left part rewrites just the
middle element. -/
theorem setStepAt_at_middle (A : List ProcessStep) (b : ProcessStep)
    (C : List ProcessStep) (f : ProcessStep → ProcessStep) :
    setStepAt (A ++ b :: C) A.length f = A ++ f b :: C := by
  unfold setStepAt
  rw [list_get_at_middle]
  exact list_set_at_middle A b (f b) C

/-- Loop invariant of `startProcess`'s `for` loop: iterating over `rest`
with the loop index at the length of the already-processed part `A` turns
each remaining step into its terminal value, leaves the untouched tail `C`
alone, and leaves the overall progress at `((index + 1) / total) * 100` of
the last iteration. -/
theorem runLoop_spec (work : String → Except (Option String) Unit)
    (total : Nat) :
    ∀ (rest A C : List ProcessStep) (st : RunState),
      st.steps = A ++ rest ++ C →
      runLoop work total A.length rest st =
        { steps := A ++ rest.map (stepFinal work) ++ C,
          overallProgress :=
            if rest = [] then st.overallProgress
            else ((A.length + rest.length : ℚ) / total) * 100,
          isCompleted := st.isCompleted,
          completeCalls := st.completeCalls } := by
  intro rest
  induction rest with
  | nil =>
    intro A C st hst
    cases st
    simp_all [runLoop]
  | cons s rest ih =>
    intro A C st hst
    have hsteps : st.steps = A ++ s :: (rest ++ C) := by simpa using hst
    have hstep : stepIteration work total st A.length s.id =
        { steps := (A ++ [stepFinal work s]) ++ rest ++ C,
          overallProgress := ((A.length + 1 : ℚ) / total) * 100,
          isCompleted := st.isCompleted,
          completeCalls := st.completeCalls } := by
      unfold stepIteration markOutcome markProcessing
      rw [hsteps]
      cases hw : work s.id <;>
        simp [setStepAt_at_middle, stepFinal, hw]
    have hlen : (A ++ [stepFinal work s]).length = A.length + 1 := by simp
    have h2 := ih (A ++ [stepFinal work s]) C
      (stepIteration work total st A.length s.id) (by rw [hstep])
    rw [hlen, hstep] at h2
    dsimp only at h2
    show runLoop work total (A.length + 1) rest
      (stepIteration work total st A.length s.id) = _
    rw [hstep, h2]
    simp only [RunState.mk.injEq]
    refine ⟨by simp, ?_, trivial, trivial⟩
    rw [if_neg (List.cons_ne_nil s rest)]
    simp only [List.length_cons]
    rcases eq_or_ne rest ([] : List ProcessStep) with hr | hr
    · subst hr
      simp only [if_pos rfl, List.length_nil]
      push_cast
      ring
    · rw [if_neg hr]
      push_cast
      ring

/-- C1: for every run of the orchestrator over a non-empty list of entities
(all steps initially pending), every step reaches a terminal status — a
step whose work succeeds ends `completed` and a step whose work throws ends
`error` with a non-empty message — with progress 100; after each step the
overall progress equals (terminal steps / total steps) * 100 and reaches
100 at the end; and the completion callback is signalled exactly once. -/
theorem orchestrator_spec (work : String → Except (Option String) Unit)
    (ids : List String) (pfx : String)
    (hne : ids ≠ [])
    (hmsg : ∀ id m, work id = Except.error (some m) → m ≠ "") :
    (startProcess work (makeSteps pfx ids)).steps.length = ids.length ∧
    (∀ i (hi : i < ids.length),
      ∃ s, (startProcess work (makeSteps pfx ids)).steps[i]? = some s ∧
        s.progress = 100 ∧
        (work ids[i] = Except.ok () → s.status = StepStatus.completed) ∧
        (∀ e, work ids[i] = Except.error e →
          s.status = StepStatus.error ∧ ∃ m, s.errorMsg = some m ∧ m ≠ "")) ∧
    (∀ k, 0 < k → k ≤ ids.length →
      countTerminal (stateAfter work (makeSteps pfx ids) k).steps = k ∧
      (stateAfter work (makeSteps pfx ids) k).overallProgress =
        ((countTerminal (stateAfter work (makeSteps pfx ids) k).steps : ℚ) /
          ids.length) * 100) ∧
    (startProcess work (makeSteps pfx ids)).overallProgress = 100 ∧
    (startProcess work (makeSteps pfx ids)).isCompleted = true ∧
    (startProcess work (makeSteps pfx ids)).completeCalls = 1 := by
  have hlen0 : (makeSteps pfx ids).length = ids.length := by simp [makeSteps]
  have hfull := runLoop_spec work (makeSteps pfx ids).length (makeSteps pfx ids)
    [] []
    { steps := makeSteps pfx ids, overallProgress := 0, isCompleted := false,
      completeCalls := 0 } (by simp)
  have hne' : makeSteps pfx ids ≠ [] := by
    simp [makeSteps]
    exact hne
  have hstart : startProcess work (makeSteps pfx ids) =
      { steps := (makeSteps pfx ids).map (stepFinal work),
        overallProgress :=
          (((makeSteps pfx ids).length : ℚ) / (makeSteps pfx ids).length) * 100,
        isCompleted := true, completeCalls := 1 } := by
    have h0 := hfull
    rw [show (([] : List ProcessStep)).length = 0 from rfl] at h0
    unfold startProcess
    rw [h0]
    simp [hne']
  refine ⟨?_, ?_, ?_, ?_, ?_, ?_⟩
  · rw [hstart]
    simp [makeSteps]
  · intro i hi
    rw [hstart]
    simp only [List.getElem?_map]
    have hm : (makeSteps pfx ids)[i]? =
        some { id := ids[i], name := pfx ++ ids[i],
               status := StepStatus.pending, progress := 0, errorMsg := none } := by
      simp only [makeSteps, List.getElem?_map]
      rw [List.getElem?_eq_getElem hi]
      simp
    rw [hm]
    refine ⟨_, rfl, ?_, ?_, ?_⟩
    · cases hw : work ids[i] <;> simp [stepFinal, hw]
    · intro hok
      simp [stepFinal, hok]
    · intro e he
      refine ⟨by simp [stepFinal, he], errText e, by simp [stepFinal, he], ?_⟩
      cases e with
      | none => simp [errText]
      | some m => exact hmsg _ m he
  · intro k hk0 hk
    have htd : makeSteps pfx ids =
        (makeSteps pfx ids).take k ++ (makeSteps pfx ids).drop k := by simp
    have hpref := runLoop_spec work (makeSteps pfx ids).length
      ((makeSteps pfx ids).take k) [] ((makeSteps pfx ids).drop k)
      { steps := makeSteps pfx ids, overallProgress := 0, isCompleted := false,
        completeCalls := 0 } (by simp)
    have hafter : stateAfter work (makeSteps pfx ids) k =
        { steps := ((makeSteps pfx ids).take k).map (stepFinal work) ++
            (makeSteps pfx ids).drop k,
          overallProgress :=
            if (makeSteps pfx ids).take k = [] then 0
            else ((((makeSteps pfx ids).take k).length : ℚ) /
              (makeSteps pfx ids).length) * 100,
          isCompleted := false, completeCalls := 0 } := by
      have h0 := hpref
      rw [show (([] : List ProcessStep)).length = 0 from rfl] at h0
      unfold stateAfter
      rw [h0]
      simp
    have hkl : ((makeSteps pfx ids).take k).length = k := by
      rw [List.length_take, hlen0]
      omega
    have htne : (makeSteps pfx ids).take k ≠ [] := by
      intro hc
      rw [hc] at hkl
      simp at hkl
      omega
    have hcnt : countTerminal (stateAfter work (makeSteps pfx ids) k).steps = k := by
      rw [hafter]
      unfold countTerminal
      rw [List.countP_append, List.countP_map]
      have hones : List.countP
          ((fun s => s.status == StepStatus.completed ||
            s.status == StepStatus.error) ∘ stepFinal work)
          ((makeSteps pfx ids).take k) = ((makeSteps pfx ids).take k).length := by
        rw [List.countP_eq_length]
        intro a _
        cases hw : work a.id <;> simp [stepFinal, hw]
      have hzero : List.countP
          (fun s => s.status == StepStatus.completed ||
            s.status == StepStatus.error) ((makeSteps pfx ids).drop k) = 0 := by
        rw [List.countP_eq_zero]
        intro a ha
        have hmem : a ∈ makeSteps pfx ids := List.mem_of_mem_drop ha
        simp only [makeSteps, List.mem_map] at hmem
        obtain ⟨j, -, rfl⟩ := hmem
        simp
      rw [hones, hzero, hkl]
      omega
    refine ⟨hcnt, ?_⟩
    rw [hcnt, hafter]
    simp only [if_neg htne, hkl, hlen0]
  · rw [hstart]
    have hq : ((makeSteps pfx ids).length : ℚ) ≠ 0 := by
      have hl : ids.length ≠ 0 := by
        intro hc
        exact hne (List.eq_nil_of_length_eq_zero hc)
      rw [hlen0]
      exact_mod_cast hl
    rw [div_self hq]
    norm_num
  · rw [hstart]
  · rw [hstart]

/-- C1 witness: the spec's scenario — three steps where the second throws a
network error — evaluated through the orchestrator theorem. -/
theorem orchestrator_spec_witness :
    (startProcess scenarioWork (makeSteps "sync " ["S1", "S2", "S3"])).completeCalls = 1 ∧
    (startProcess scenarioWork (makeSteps "sync " ["S1", "S2", "S3"])).overallProgress = 100 ∧
    (∃ s, (startProcess scenarioWork (makeSteps "sync " ["S1", "S2", "S3"])).steps[1]? =
        some s ∧ s.status = StepStatus.error ∧ ∃ m, s.errorMsg = some m ∧ m ≠ "") := by
  have h := orchestrator_spec scenarioWork ["S1", "S2", "S3"] "sync "
    (by decide)
    (by
      intro id m hm
      by_cases hid : id = "S2"
      · simp [scenarioWork, hid] at hm
        subst hm
        decide
      · simp [scenarioWork, hid] at hm)
  obtain ⟨s, hs, hp, hok, herr⟩ := h.2.1 1 (by norm_num)
  have he := herr (some "network error") (by simp [scenarioWork])
  exact ⟨h.2.2.2.2.2, h.2.2.2.1, s, hs, he.1, he.2⟩

/-- C10: for a current price equal to 0 (a non-null numeric zero) the pricing
rule evaluator returns `null` for every action and value, exactly as for a
null/absent current price. -/
theorem calculateNewPrice_zero_is_null (action : String) (value : ℚ) :
    calculateNewPrice (some 0) action value = none ∧
    calculateNewPrice none action value = none := by
  constructor <;> simp [calculateNewPrice, jsFalsyNum]

/-- C2 counterexample: the claim demands `computeNewPrice(p, multiply, v) =
p * v` for every (non-null) current price `p`, but at the concrete input
`p = 0`, `v = 5` the code returns `null`, not `0 * 5`. -/
theorem calculateNewPrice_claim_false_at_zero :
    calculateNewPrice (some 0) "multiply" 5 ≠ some (0 * 5) := by
  simp [calculateNewPrice, jsFalsyNum]

/-- C2 (amended): for every non-null and non-zero current price `p` the
evaluator returns `p * v` for action `multiply`, `p + v` for action `add`
and `p` unchanged for any other action; a null/absent (or zero, by the JS
falsiness check) current price yields `null`. -/
theorem calculateNewPrice_spec :
    (∀ (action : String) (v : ℚ), calculateNewPrice none action v = none) ∧
    (∀ (p v : ℚ), p ≠ 0 → calculateNewPrice (some p) "multiply" v = some (p * v)) ∧
    (∀ (p v : ℚ), p ≠ 0 → calculateNewPrice (some p) "add" v = some (p + v)) ∧
    (∀ (p v : ℚ) (action : String), p ≠ 0 → action ≠ "multiply" → action ≠ "add" →
      calculateNewPrice (some p) action v = some p) := by
  refine ⟨fun action v => ?_, fun p v hp => ?_, fun p v hp => ?_,
    fun p v action hp h1 h2 => ?_⟩ <;>
    simp [calculateNewPrice, jsFalsyNum, *]

/-- C2 witness: evaluating the amended specification at concrete inputs. -/
theorem calculateNewPrice_spec_witness :
    calculateNewPrice (some 10) "multiply" 3 = some 30 ∧
    calculateNewPrice (some 10) "add" 3 = some 13 ∧
    calculateNewPrice (some 10) "noop" 3 = some 10 := by
  have h := calculateNewPrice_spec
  refine ⟨?_, ?_, ?_⟩
  · have := h.2.1 10 3 (by norm_num)
    rw [this]; norm_num
  · have := h.2.2.1 10 3 (by norm_num)
    rw [this]; norm_num
  · exact h.2.2.2 10 3 "noop" (by norm_num) (by decide) (by decide)

/-- C3 counterexample: the claim demands, for every pair of non-null prices,
the status matching strict comparison; at old price 5 and new price 0 (both
non-null, and 0 < 5) the code yields `unchanged`, not `decreased`. -/
theorem classifyPriceStatus_claim_false_at_zero :
    classifyPriceStatus (some 0) (some 5) = "unchanged" ∧ (0 : ℚ) < 5 := by
  constructor
  · simp [classifyPriceStatus, jsFalsyNum]
  · norm_num

/-- C3 (amended): the classifier yields `unchanged` when either price is
null (or zero, treated as absent by the JS falsiness check), and for every
pair of non-null non-zero prices returns exactly one of
increased/decreased/unchanged matching strict comparison. -/
theorem classifyPriceStatus_spec :
    (∀ o, classifyPriceStatus none o = "unchanged") ∧
    (∀ n, classifyPriceStatus n none = "unchanged") ∧
    (∀ (c n : ℚ), c ≠ 0 → n ≠ 0 →
      (classifyPriceStatus (some n) (some c) = "increased" ↔ n > c) ∧
      (classifyPriceStatus (some n) (some c) = "decreased" ↔ n < c) ∧
      (classifyPriceStatus (some n) (some c) = "unchanged" ↔ n = c)) := by
  refine ⟨fun o => ?_, fun n => ?_, fun c n hc hn => ?_⟩
  · simp [classifyPriceStatus, jsFalsyNum]
  · cases n <;> simp [classifyPriceStatus, jsFalsyNum]
  · rcases lt_trichotomy n c with h | h | h <;>
      simp [classifyPriceStatus, jsFalsyNum, hc, hn, h, le_of_lt, not_lt_of_gt,
        ne_of_lt, ne_of_gt, lt_irrefl]

/-- C3 witness: evaluating the amended classifier specification at concrete
non-zero prices. -/
theorem classifyPriceStatus_spec_witness :
    classifyPriceStatus (some 7) (some 5) = "increased" ∧
    classifyPriceStatus (some 3) (some 5) = "decreased" ∧
    classifyPriceStatus (some 5) (some 5) = "unchanged" := by
  have h := classifyPriceStatus_spec
  refine ⟨?_, ?_, ?_⟩
  · exact ((h.2.2 5 7 (by norm_num) (by norm_num)).1).2 (by norm_num)
  · exact ((h.2.2 5 3 (by norm_num) (by norm_num)).2.1).2 (by norm_num)
  · exact ((h.2.2 5 5 (by norm_num) (by norm_num)).2.2).2 rfl

/-- C4: the article reconciler keys marketplace rows by `marketplace_article`
with last write winning on duplicate keys, matches each supplier product by
its `supplier_article`, preserves the supplier row's id, sets `display_name`
to the matched row's `name_marketplace` when a match with a non-empty one
exists and to the supplier's `name_supplier` otherwise, and leaves
`marketplace_article` null when no match is found. -/
theorem enrichProducts_spec (sps mps : List ProductRow) (i : Nat)
    (hi : i < sps.length) (hi' : i < (enrichProducts sps mps).length) :
    (enrichProducts sps mps).length = sps.length ∧
    ((enrichProducts sps mps).get ⟨i, hi'⟩).id = (sps.get ⟨i, hi⟩).id ∧
    ((enrichProducts sps mps).get ⟨i, hi'⟩).display_name =
      (match buildArticleMapping mps (sps.get ⟨i, hi⟩).supplier_article with
       | some mp =>
         match mp.name_marketplace with
         | some nm => if nm = "" then (sps.get ⟨i, hi⟩).name_supplier else nm
         | none => (sps.get ⟨i, hi⟩).name_supplier
       | none => (sps.get ⟨i, hi⟩).name_supplier) ∧
    (buildArticleMapping mps (sps.get ⟨i, hi⟩).supplier_article = none →
      ((enrichProducts sps mps).get ⟨i, hi'⟩).marketplace_article = none) ∧
    (∀ (pre : List ProductRow) (mp : ProductRow) (a : String),
      mp.marketplace_article = some a → a ≠ "" →
      buildArticleMapping (pre ++ [mp]) a = some mp) := by
  refine ⟨by simp [enrichProducts], ?_, ?_, ?_, ?_⟩
  · simp [enrichProducts, enrichOne]
  · simp only [enrichProducts, List.get_eq_getElem, List.getElem_map]
    show (enrichOne (buildArticleMapping mps) sps[i]).display_name = _
    unfold enrichOne
    cases hm : buildArticleMapping mps (sps[i]).supplier_article with
    | none => simp [jsOrNullStr, hm]
    | some mp =>
      cases hn : mp.name_marketplace with
      | none => simp [jsOrNullStr, hm, hn]
      | some nm =>
        by_cases he : nm = "" <;> simp [jsOrNullStr, hm, hn, he]
  · intro hm
    simp only [List.get_eq_getElem] at hm
    simp only [enrichProducts, List.get_eq_getElem, List.getElem_map]
    show (enrichOne (buildArticleMapping mps) sps[i]).marketplace_article = none
    unfold enrichOne
    simp [jsOrNullStr, hm]
  · intro pre mp a ha hne
    unfold buildArticleMapping
    rw [List.foldl_append]
    simp [ha, hne]

/-- C4 witness: the reconciler evaluated on the spec's concrete scenario —
supplier row (article "A1", name "X") with a matching marketplace row
(marketplace article "A1", marketplace name "Y"), and the same supplier row
with no marketplace rows at all. -/
theorem enrichProducts_spec_witness :
    ((enrichProducts [⟨"id1", "A1", "X", none, none, none⟩]
        [⟨"id2", "B7", "Z", some "A1", some "Y", none⟩]).get
      ⟨0, by decide⟩).display_name = "Y" ∧
    ((enrichProducts [⟨"id1", "A1", "X", none, none, none⟩]
        ([] : List ProductRow)).get ⟨0, by decide⟩).display_name = "X" ∧
    ((enrichProducts [⟨"id1", "A1", "X", none, none, none⟩]
        ([] : List ProductRow)).get ⟨0, by decide⟩).marketplace_article = none := by
  have h1 := enrichProducts_spec [⟨"id1", "A1", "X", none, none, none⟩]
    [⟨"id2", "B7", "Z", some "A1", some "Y", none⟩] 0 (by decide) (by decide)
  have h2 := enrichProducts_spec [⟨"id1", "A1", "X", none, none, none⟩]
    ([] : List ProductRow) 0 (by decide) (by decide)
  refine ⟨h1.2.2.1.trans (by decide), h2.2.2.1.trans (by decide),
    h2.2.2.2.1 (by decide)⟩

/-- C7: the display sort returns a permutation of its input, ordered
ascending by status rank, where increased < decreased < unchanged < missing
and any unrecognized status ranks strictly after missing (sorted last). -/
theorem sortProductsForDisplay_spec (ps : List EnrichedProduct) :
    (sortProductsForDisplay ps).Perm ps ∧
    List.Pairwise
      (fun a b => statusRank a.price_status ≤ statusRank b.price_status)
      (sortProductsForDisplay ps) ∧
    statusRank (some "increased") < statusRank (some "decreased") ∧
    statusRank (some "decreased") < statusRank (some "unchanged") ∧
    statusRank (some "unchanged") < statusRank (some "missing") ∧
    (∀ s : Option String,
      s ∉ [some "increased", some "decreased", some "unchanged", some "missing"] →
      statusRank (some "missing") < statusRank s) := by
  refine ⟨List.mergeSort_perm ps _, ?_, by decide, by decide, by decide, ?_⟩
  · have hs := @List.sorted_mergeSort EnrichedProduct
      (fun a b => statusRank a.price_status ≤ statusRank b.price_status)
      (fun a b c hab hbc => by
        simp only [decide_eq_true_eq] at hab hbc ⊢
        omega)
      (fun a b => by
        simp only [Bool.or_eq_true, decide_eq_true_eq]
        omega)
      ps
    exact hs.imp (fun h => by simpa using h)
  · intro s hs
    cases s with
    | none => simp [statusRank]
    | some str =>
      have e1 : str ≠ "increased" := by rintro rfl; simp at hs
      have e2 : str ≠ "decreased" := by rintro rfl; simp at hs
      have e3 : str ≠ "unchanged" := by rintro rfl; simp at hs
      have e4 : str ≠ "missing" := by rintro rfl; simp at hs
      simp [statusRank, e1, e2, e3, e4]

/-- C7 witness: the unrecognized-status conjunct evaluated at a concrete
status, and the sort evaluated on a concrete two-element list. -/
theorem sortProductsForDisplay_spec_witness :
    statusRank (some "missing") < statusRank (some "weird") ∧
    (sortProductsForDisplay ([] : List EnrichedProduct)).Perm [] :=
  ⟨(sortProductsForDisplay_spec []).2.2.2.2.2 (some "weird") (by decide),
   (sortProductsForDisplay_spec []).1⟩

/-- C5: the quota guard denies a run (leaving the state unchanged, so no
step starts) whenever `used >= max`, otherwise allows it and increments
`used` by exactly one per accepted run; `used` never exceeds `max`; at the
boundary `used = max` denies, `used = max - 1` allows and raises `used` to
`max` after which a further request is denied; reset sets `used` to 0. -/
theorem quotaGuard_spec (s : SandboxState) :
    (s.testRequests.used ≥ s.testRequests.max → runTest s = s) ∧
    (s.testRequests.used < s.testRequests.max →
      (runTest s).showProgress = true ∧
      (runTest s).testRequests.used = s.testRequests.used + 1 ∧
      (runTest s).testRequests.max = s.testRequests.max) ∧
    (s.testRequests.used ≤ s.testRequests.max →
      (runTest s).testRequests.used ≤ s.testRequests.max) ∧
    (s.testRequests.used = s.testRequests.max →
      runTest s = s) ∧
    (s.testRequests.used + 1 = s.testRequests.max →
      (runTest s).testRequests.used = s.testRequests.max ∧
      runTest (runTest s) = runTest s) ∧
    (resetTestCounter s).testRequests.used = 0 := by
  refine ⟨fun h => ?_, fun h => ?_, fun h => ?_, fun h => ?_, fun h => ?_, ?_⟩
  · simp [runTest, h]
  · simp [runTest, not_le.mpr h]
  · by_cases hlt : s.testRequests.used < s.testRequests.max
    · simp [runTest, not_le.mpr hlt]
      omega
    · simp [runTest, le_of_not_lt hlt]
      exact h
  · simp [runTest, le_of_eq h.symm]
  · have hlt : s.testRequests.used < s.testRequests.max := by omega
    constructor
    · simp [runTest, not_le.mpr hlt]
      omega
    · have h1 : (runTest s).testRequests.used = s.testRequests.max := by
        simp [runTest, not_le.mpr hlt]
        omega
      have h2 : (runTest s).testRequests.max = s.testRequests.max := by
        simp [runTest, not_le.mpr hlt]
      simp [runTest, not_le.mpr hlt] at h1 h2 ⊢
      omega
  · simp [resetTestCounter]

/-- C5 witness: the boundary behaviour evaluated at `used = 99`, `max = 100`
and at `used = max = 100`, plus a reset. -/
theorem quotaGuard_spec_witness :
    (runTest ⟨false, false, ⟨99, 100⟩⟩).testRequests.used = 100 ∧
    runTest (runTest ⟨false, false, ⟨99, 100⟩⟩) = runTest ⟨false, false, ⟨99, 100⟩⟩ ∧
    runTest ⟨false, false, ⟨100, 100⟩⟩ = ⟨false, false, ⟨100, 100⟩⟩ ∧
    (resetTestCounter ⟨false, false, ⟨100, 100⟩⟩).testRequests.used = 0 := by
  have h1 := quotaGuard_spec ⟨false, false, ⟨99, 100⟩⟩
  have h2 := quotaGuard_spec ⟨false, false, ⟨100, 100⟩⟩
  exact ⟨(h1.2.2.2.2.1 (by decide)).1, (h1.2.2.2.2.1 (by decide)).2,
    h2.2.2.2.1 (by decide), h2.2.2.2.2.2⟩

/-- C8: when a run completes, the control panel's completion handler hides
the progress view; if the run was a download and auto mode is disabled it
opens the price-update review modal (the manual-review gate before any
upload), and if auto mode is enabled it opens no such gate. -/
theorem downloadGate_spec (s : ControlPanelState) :
    (s.progressType = "download" → s.autoModeEnabled = false →
      (onRunComplete s).showPriceUpdateModal = true) ∧
    (s.autoModeEnabled = true →
      (onRunComplete s).showPriceUpdateModal = s.showPriceUpdateModal) ∧
    (onRunComplete s).showProgress = false := by
  refine ⟨fun hd ha => ?_, fun ha => ?_, ?_⟩
  · simp [onRunComplete, hd, ha]
  · simp [onRunComplete, ha]
  · simp [onRunComplete]

/-- C8 witness: the gate evaluated after a download run with auto mode off
and with auto mode on. -/
theorem downloadGate_spec_witness :
    (onRunComplete ⟨true, "download", false, false⟩).showPriceUpdateModal = true ∧
    (onRunComplete ⟨true, "download", true, false⟩).showPriceUpdateModal = false := by
  have h1 := downloadGate_spec ⟨true, "download", false, false⟩
  have h2 := downloadGate_spec ⟨true, "download", true, false⟩
  exact ⟨h1.1 rfl rfl, h2.2.1 rfl⟩

/-- C6 counterexample: the claim requires validation to demand at least one
image, but the concrete payload with non-empty text fields and an empty
image list passes `ProductSchema` (even under a URL validator that rejects
everything) and the network POST to `/goods` is issued. -/
theorem addProduct_claim_false_empty_images :
    productSchemaValid (fun _ => false) ⟨"s", "t", "b", "c", "d", [], []⟩ = true ∧
    addProduct (fun _ => false) ⟨"s", "t", "b", "c", "d", [], []⟩ =
      Except.ok [ApiEvent.request "/goods" ⟨"s", "t", "b", "c", "d", [], []⟩] := by
  exact ⟨rfl, rfl⟩

/-- C6 (amended): every outbound product payload is schema-validated before
any network call; validation requires non-empty `sku`, `title`, `brand`,
`category` and `description` and a syntactically valid URL for every image
present (attributes are (code, value) pairs by shape), but does not require
the image list to be non-empty; a payload violating these rules fails with a
validation error and no network request. -/
theorem addProduct_validation_spec (isUrl : String → Bool)
    (p : KaspiProductPayload) :
    (productSchemaValid isUrl p = true ↔
      p.sku ≠ "" ∧ p.title ≠ "" ∧ p.brand ≠ "" ∧ p.category ≠ "" ∧
      p.description ≠ "" ∧ ∀ im ∈ p.images, isUrl im.url = true) ∧
    (productSchemaValid isUrl p = false →
      addProduct isUrl p = Except.error "ValidationError") ∧
    (productSchemaValid isUrl p = true →
      addProduct isUrl p = Except.ok [ApiEvent.request "/goods" p]) := by
  refine ⟨?_, fun h => ?_, fun h => ?_⟩
  · simp [productSchemaValid, List.all_eq_true]
    tauto
  · simp [addProduct, h]
  · simp [addProduct, h]

/-- C6 witness: a fully valid payload with one image passes and issues the
POST; a payload with an empty title fails with no request. -/
theorem addProduct_validation_spec_witness :
    addProduct (fun u => u == "https://x.kz/1.png")
      ⟨"s1", "Deflector", "Brand", "Auto", "desc", [⟨"https://x.kz/1.png"⟩],
        [⟨"color", "black"⟩]⟩ =
      Except.ok [ApiEvent.request "/goods"
        ⟨"s1", "Deflector", "Brand", "Auto", "desc", [⟨"https://x.kz/1.png"⟩],
          [⟨"color", "black"⟩]⟩] ∧
    addProduct (fun u => u == "https://x.kz/1.png")
      ⟨"s1", "", "Brand", "Auto", "desc", [⟨"https://x.kz/1.png"⟩], []⟩ =
      Except.error "ValidationError" := by
  have h1 := addProduct_validation_spec (fun u => u == "https://x.kz/1.png")
    ⟨"s1", "Deflector", "Brand", "Auto", "desc", [⟨"https://x.kz/1.png"⟩],
      [⟨"color", "black"⟩]⟩
  have h2 := addProduct_validation_spec (fun u => u == "https://x.kz/1.png")
    ⟨"s1", "", "Brand", "Auto", "desc", [⟨"https://x.kz/1.png"⟩], []⟩
  exact ⟨h1.2.2 (by decide), h2.2.1 (by decide)⟩

/-- C9: exporting the one-row enriched list {name "Phone", kaspi article
"K1", supplier article "S1", price 50000} yields a semicolon-delimited CSV
whose file content starts with the BOM character and whose second line is
`"Phone";K1;S1;50000`, the header line coming first. -/
theorem csvExport_phone :
    (csvLines [⟨"p1", "Phone", "K1", "S1", 50000⟩])[1]? =
      some "\"Phone\";K1;S1;50000" ∧
    (csvLines [⟨"p1", "Phone", "K1", "S1", 50000⟩])[0]? =
      some "Наименование товара;Артикул Каспи;Артикул поставщика;Цена" ∧
    (exportFileContent [⟨"p1", "Phone", "K1", "S1", 50000⟩]).data.head? =
      some (Char.ofNat 0xFEFF) ∧
    exportFileContent [⟨"p1", "Phone", "K1", "S1", 50000⟩] =
      "﻿Наименование товара;Артикул Каспи;Артикул поставщика;Цена\n\"Phone\";K1;S1;50000" := by
  refine ⟨by decide, by decide, by decide, by decide⟩

end AutoPartsSync
